import Mathlib

/-!
Verification of the lifetime registry of `react-lifetime-component`
(`src/Component/LifetimeController.tsx`).

The registry state and its operations are shallowly embedded: the two JS
`Map`s (`AllComponents : Map<string, ComponentState>` and
`CurrentRendered : Map<string | number, string>`) become insertion-ordered
association lists with JS `Map` semantics (`set` updates a present key in
place and appends an absent one; `delete` removes the entry; iteration is
in insertion order), globally unique GUID strings from
`HttpService.GenerateGUID()` become a `Nat` counter threaded through the
state, and the stored `Updater` callback becomes a `Bool` returned by
`UnlistComponent` that records whether `this.Updater()` was invoked.
-/

set_option maxHeartbeats 1000000
set_option linter.unusedSectionVars false

namespace ReactLifetime

/-! ### Association lists with JS `Map` semantics -/

namespace AList

variable {α β : Type} [DecidableEq α]

/-- `Map.get(k)`: the value stored at the first (with unique keys: the only)
occurrence of `k`. -/
def get? : List (α × β) → α → Option β
  | [], _ => none
  | p :: t, k => if p.1 = k then some p.2 else get? t k

/-- `Map.set(k, v)`: replace the value in place when the key is present,
append a fresh pair otherwise. -/
def set : List (α × β) → α → β → List (α × β)
  | [], k, v => [(k, v)]
  | p :: t, k, v => if p.1 = k then (k, v) :: t else p :: set t k v

/-- `Map.delete(k)`: remove the first occurrence of the key (the only one,
when keys are unique). -/
def del : List (α × β) → α → List (α × β)
  | [], _ => []
  | p :: t, k => if p.1 = k then t else p :: del t k

/-- The keys of the map, in insertion order. -/
def keys (l : List (α × β)) : List α := l.map Prod.fst

@[simp] theorem get?_nil (k : α) : get? ([] : List (α × β)) k = none := rfl

theorem get?_cons (p : α × β) (t : List (α × β)) (k : α) :
    get? (p :: t) k = if p.1 = k then some p.2 else get? t k := rfl

@[simp] theorem keys_nil : keys ([] : List (α × β)) = [] := rfl

@[simp] theorem keys_cons (p : α × β) (t : List (α × β)) :
    keys (p :: t) = p.1 :: keys t := rfl

theorem keys_append (l l' : List (α × β)) : keys (l ++ l') = keys l ++ keys l' := by
  simp [keys]

theorem mem_keys_iff (l : List (α × β)) (a : α) :
    a ∈ keys l ↔ ∃ p ∈ l, p.1 = a := by
  simp [keys]

@[simp] theorem get?_set_self (l : List (α × β)) (k : α) (v : β) :
    get? (set l k v) k = some v := by
  induction l with
  | nil => simp [set, get?]
  | cons p t ih =>
    by_cases h : p.1 = k
    · rw [set, if_pos h, get?_cons, if_pos rfl]
    · rw [set, if_neg h, get?_cons, if_neg h, ih]

theorem get?_set_ne (l : List (α × β)) (k k' : α) (v : β) (h : k' ≠ k) :
    get? (set l k v) k' = get? l k' := by
  have hkk : ¬ (k = k') := fun he => h he.symm
  induction l with
  | nil => simp [set, get?, hkk]
  | cons p t ih =>
    by_cases hp : p.1 = k
    · have hp' : ¬ p.1 = k' := fun he => hkk (hp.symm.trans he)
      rw [set, if_pos hp, get?_cons, get?_cons, if_neg hkk, if_neg hp']
    · rw [set, if_neg hp, get?_cons, get?_cons, ih]

theorem set_eq_append (l : List (α × β)) (k : α) (v : β) (h : get? l k = none) :
    set l k v = l ++ [(k, v)] := by
  induction l with
  | nil => simp [set]
  | cons p t ih =>
    rw [get?_cons] at h
    by_cases hp : p.1 = k
    · simp [hp] at h
    · rw [set, if_neg hp, List.cons_append, ih (by simpa [hp] using h)]

theorem keys_set_of_none (l : List (α × β)) (k : α) (v : β) (h : get? l k = none) :
    keys (set l k v) = keys l ++ [k] := by
  rw [set_eq_append l k v h, keys_append]
  rfl

theorem keys_set_of_some (l : List (α × β)) (k : α) (v : β) (h : get? l k ≠ none) :
    keys (set l k v) = keys l := by
  induction l with
  | nil => simp [get?] at h
  | cons p t ih =>
    rw [get?_cons] at h
    by_cases hp : p.1 = k
    · rw [set, if_pos hp, keys_cons, keys_cons, hp]
    · rw [set, if_neg hp, keys_cons, keys_cons, ih (by simpa [hp] using h)]

theorem get?_eq_none_iff (l : List (α × β)) (k : α) :
    get? l k = none ↔ ∀ p ∈ l, p.1 ≠ k := by
  induction l with
  | nil => simp
  | cons p t ih =>
    rw [get?_cons]
    by_cases hp : p.1 = k <;> simp [hp, ih]

theorem get?_isSome_iff_mem_keys (l : List (α × β)) (k : α) :
    (get? l k).isSome ↔ k ∈ keys l := by
  induction l with
  | nil => simp
  | cons p t ih =>
    rw [get?_cons, keys_cons]
    by_cases hp : p.1 = k
    · simp [hp]
    · have hk : ¬ k = p.1 := fun he => hp he.symm
      simp [hp, hk, ih]

theorem get?_mem (l : List (α × β)) (k : α) (v : β) (h : get? l k = some v) :
    (k, v) ∈ l := by
  induction l with
  | nil => simp [get?] at h
  | cons p t ih =>
    rw [get?_cons] at h
    by_cases hp : p.1 = k
    · rw [if_pos hp] at h
      rcases p with ⟨a, b⟩
      simp only at hp
      simp only [Option.some.injEq] at h
      simp [List.mem_cons, hp, h]
    · rw [if_neg hp] at h
      exact List.mem_cons_of_mem p (ih h)

theorem get?_of_mem_of_nodup (l : List (α × β)) (k : α) (v : β)
    (hmem : (k, v) ∈ l) (hnd : (keys l).Nodup) : get? l k = some v := by
  induction l with
  | nil => simp at hmem
  | cons p t ih =>
    rw [keys_cons, List.nodup_cons] at hnd
    rcases List.mem_cons.mp hmem with h | h
    · rw [get?_cons, ← h]
      simp
    · have hk : k ∈ keys t := by
        rw [mem_keys_iff]
        exact ⟨(k, v), h, rfl⟩
      have hp : p.1 ≠ k := fun he => hnd.1 (by rw [he]; exact hk)
      rw [get?_cons, if_neg hp]
      exact ih h hnd.2

theorem del_eq_self_of_none (l : List (α × β)) (k : α) (h : get? l k = none) :
    del l k = l := by
  induction l with
  | nil => rfl
  | cons p t ih =>
    rw [get?_cons] at h
    by_cases hp : p.1 = k
    · simp [hp] at h
    · rw [del, if_neg hp, ih (by simpa [hp] using h)]

theorem del_sublist (l : List (α × β)) (k : α) : (del l k).Sublist l := by
  induction l with
  | nil => simp [del]
  | cons p t ih =>
    by_cases hp : p.1 = k
    · rw [del, if_pos hp]
      exact List.sublist_cons_self p t
    · rw [del, if_neg hp]
      exact List.Sublist.cons₂ p ih

theorem get?_del_ne (l : List (α × β)) (k k' : α) (h : k' ≠ k) :
    get? (del l k) k' = get? l k' := by
  induction l with
  | nil => rfl
  | cons p t ih =>
    by_cases hp : p.1 = k
    · have hp' : ¬ p.1 = k' := fun he => h (hp.symm.trans he).symm
      rw [del, if_pos hp, get?_cons, if_neg hp']
    · rw [del, if_neg hp, get?_cons, get?_cons, ih]

theorem get?_del_self_of_nodup (l : List (α × β)) (k : α)
    (hnd : (keys l).Nodup) : get? (del l k) k = none := by
  induction l with
  | nil => rfl
  | cons p t ih =>
    rw [keys_cons, List.nodup_cons] at hnd
    by_cases hp : p.1 = k
    · rw [del, if_pos hp, get?_eq_none_iff]
      intro q hq he
      refine hnd.1 ?_
      rw [hp, ← he, mem_keys_iff]
      exact ⟨q, hq, rfl⟩
    · rw [del, if_neg hp, get?_cons, if_neg hp]
      exact ih hnd.2

theorem nodup_keys_set (l : List (α × β)) (k : α) (v : β)
    (hnd : (keys l).Nodup) : (keys (set l k v)).Nodup := by
  cases h : get? l k with
  | none =>
    rw [keys_set_of_none l k v h, get?_eq_none_iff] at *
    refine List.Nodup.append hnd (by simp) ?_
    intro a ha hb
    rw [List.mem_singleton] at hb
    subst hb
    rw [mem_keys_iff] at ha
    obtain ⟨q, hq, hq1⟩ := ha
    exact h q hq hq1
  | some v' =>
    rw [keys_set_of_some l k v (by simp [h])]
    exact hnd

theorem nodup_keys_del (l : List (α × β)) (k : α)
    (hnd : (keys l).Nodup) : (keys (del l k)).Nodup := by
  exact List.Nodup.sublist (List.Sublist.map Prod.fst (del_sublist l k)) hnd

theorem get?_append_left (l l' : List (α × β)) (k : α) (h : get? l k ≠ none) :
    get? (l ++ l') k = get? l k := by
  induction l with
  | nil => simp [get?] at h
  | cons p t ih =>
    rw [get?_cons] at h
    by_cases hp : p.1 = k
    · rw [List.cons_append, get?_cons, if_pos hp, get?_cons, if_pos hp]
    · rw [if_neg hp] at h
      rw [List.cons_append, get?_cons, if_neg hp, get?_cons, if_neg hp, ih h]

theorem get?_append_right (l l' : List (α × β)) (k : α) (h : get? l k = none) :
    get? (l ++ l') k = get? l' k := by
  induction l with
  | nil => simp
  | cons p t ih =>
    rw [get?_cons] at h
    by_cases hp : p.1 = k
    · simp [hp] at h
    · rw [if_neg hp] at h
      rw [List.cons_append, get?_cons, if_neg hp, ih h]

end AList

/-! ### Data model

`src/Component/LifetimeController.tsx`, lines 6–27. -/

/-- A logical child key: `string | number` in the source
(`Map<string | number, React.Element>`). -/
inductive LKey : Type where
  | str (s : String)
  | num (n : Int)
deriving DecidableEq, Repr

/-- A key of a component's props record. `LifetimeInternal` and `UIDInternal`
are the two process-unique `newproxy()` marker keys of the source (lines
21–22); `user n` stands for an ordinary application-chosen key. -/
inductive PropKey : Type where
  | lifetimeInternal
  | uidInternal
  | user (n : Nat)
deriving DecidableEq, Repr

/-- A value stored in a props record. `controllerRef` is a reference to the
(unique, per managed parent) `LifetimeController` instance (`this` at line
124); `uidVal u` is an identity string (GUIDs are modelled as naturals);
`userVal n` stands for an ordinary application-supplied value. -/
inductive PropVal : Type where
  | controllerRef
  | uidVal (u : Nat)
  | userVal (n : Nat)
deriving DecidableEq, Repr

/-- A props record (a JS object used as a string-keyed map). -/
abbrev Props : Type := List (PropKey × PropVal)

/-- A `React.Element` as far as the controller inspects it: either an element
with a `type` and a `props` record (`"props" in element` is true), or an
opaque leaf node with no `props` field. -/
inductive RElem : Type where
  | comp (ty : Nat) (props : Props)
  | leaf (tag : Nat)
deriving DecidableEq, Repr

/-- `ComponentState` (lines 8–12): one tracked child. -/
structure ComponentState : Type where
  Key : LKey
  Element : RElem
  UID : Nat
deriving DecidableEq, Repr

/-- The `LifetimeController` class state (lines 24–28).  `nextUID` models the
`HttpService.GenerateGUID()` source: each call yields the current counter
value and bumps it, which realises the spec's assumption that every generated
identity is globally unique and never reused.  The stored `Updater` callback
is not part of the state; whether `this.Updater()` ran during a call is
returned by the operations that may invoke it. -/
structure LifetimeController : Type where
  CanRecover : Bool := false
  AllComponents : List (Nat × ComponentState) := []
  CurrentRendered : List (LKey × Nat) := []
  nextUID : Nat := 0
deriving DecidableEq, Repr

/-- The logical children mapping handed to `ProcessChildren`
(`type ReactChildren = Map<string | number, React.Element>`). -/
abbrev ReactChildren : Type := List (LKey × RElem)

/-- The controller in its initial state (all field initializers). -/
def initController : LifetimeController := {}

namespace LifetimeController

/-! ### Operations (`src/Component/LifetimeController.tsx`, lines 30–134) -/

/-- `GetComponent` (lines 33–35): `this.AllComponents.get(uid)`. -/
def GetComponent (c : LifetimeController) (uid : Nat) : Option ComponentState :=
  AList.get? c.AllComponents uid

/-- `GetRendered` (lines 43–48): the component's key when its binding holds,
`undefined` otherwise. -/
def GetRendered (c : LifetimeController) (component : ComponentState) : Option LKey :=
  match AList.get? c.CurrentRendered component.Key with
  | none => none
  | some renderKey => if renderKey ≠ component.UID then none else some component.Key

/-- `IsComponentActive` (lines 36–42). -/
def IsComponentActive (c : LifetimeController) (uid : Nat) : Bool :=
  match GetComponent c uid with
  | none => false
  | some component =>
    match GetRendered c component with
    | none => false
    | some render => AList.get? c.CurrentRendered render == some uid

/-- `RemoveRenderedByUID` (lines 49–56). -/
def RemoveRenderedByUID (c : LifetimeController) (uid : Nat) : LifetimeController :=
  match GetComponent c uid with
  | none => c
  | some component =>
    if AList.get? c.CurrentRendered component.Key == some uid then
      { c with CurrentRendered := AList.del c.CurrentRendered component.Key }
    else c

/-- `UnlistComponent` (lines 57–62).  The `Bool` component records whether
`this.Updater()` was invoked: the source calls it unconditionally on every
path that passes the activity guard. -/
def UnlistComponent (c : LifetimeController) (uid : Nat) : LifetimeController × Bool :=
  if IsComponentActive c uid then (c, false)
  else
    let c' := RemoveRenderedByUID c uid
    ({ c' with AllComponents := AList.del c'.AllComponents uid }, true)

/-- `RegistryComponent` (lines 64–73): fresh GUID, new entry, bind its key. -/
def RegistryComponent (c : LifetimeController) (element : RElem) (key : LKey) :
    LifetimeController :=
  let uid := c.nextUID
  { c with
    AllComponents := AList.set c.AllComponents uid ⟨key, element, uid⟩
    CurrentRendered := AList.set c.CurrentRendered key uid
    nextUID := c.nextUID + 1 }

/-- The effect of `UpdateComponent` on the entries map: replace the entry's
`Element`, keeping `Key` and `UID` (the object spread
`{...component, Element: element}`), no-op when the uid names no entry. -/
def updateElem (m : List (Nat × ComponentState)) (uid : Nat) (element : RElem) :
    List (Nat × ComponentState) :=
  match AList.get? m uid with
  | none => m
  | some component => AList.set m uid { component with Element := element }

/-- `UpdateComponent` (lines 74–81). -/
def UpdateComponent (c : LifetimeController) (uid : Nat) (element : RElem) :
    LifetimeController :=
  { c with AllComponents := updateElem c.AllComponents uid element }

/-- `GetRenderedComponentByKey` (lines 82–88): the first component in
`AllComponents` iteration (insertion) order whose `Key` equals `key`. -/
def GetRenderedComponentByKey (c : LifetimeController) (key : LKey) :
    Option ComponentState :=
  (c.AllComponents.find? (fun p => p.2.Key = key)).map Prod.snd

/-- The body of the first `ProcessChildren` loop (lines 93–98): for one old
binding `(key, uid)`, keep it in `newChildren` and rebind the entry's content
when `children` still lists the key.  The accumulator carries the
`newChildren` map under construction and the live `AllComponents`. -/
def processOldChild (children : ReactChildren)
    (acc : List (LKey × Nat) × List (Nat × ComponentState)) (p : LKey × Nat) :
    List (LKey × Nat) × List (Nat × ComponentState) :=
  match AList.get? children p.1 with
  | none => acc
  | some child => (AList.set acc.1 p.1 p.2, updateElem acc.2 p.2 child)

/-- Lines 91–100 of `ProcessChildren`: build `newChildren` from the current
bindings whose key is still requested (updating those entries' content), then
replace `this.CurrentRendered` with it. -/
def processPhase1 (c : LifetimeController) (children : ReactChildren) :
    LifetimeController :=
  let r := c.CurrentRendered.foldl (processOldChild children) ([], c.AllComponents)
  { c with CurrentRendered := r.1, AllComponents := r.2 }

/-- The body of the second `ProcessChildren` loop (lines 102–115): for one
requested `(key, child)` with no current binding, recover a detached entry
with the same key when `CanRecover` allows it, otherwise register a fresh
entry. -/
def processNewChild (c : LifetimeController) (p : LKey × RElem) :
    LifetimeController :=
  match AList.get? c.CurrentRendered p.1 with
  | some _ => c
  | none =>
    if c.CanRecover then
      match GetRenderedComponentByKey c p.1 with
      | some component =>
        let c' := UpdateComponent c component.UID p.2
        { c' with CurrentRendered := AList.set c'.CurrentRendered p.1 component.UID }
      | none => RegistryComponent c p.2 p.1
    else RegistryComponent c p.2 p.1

/-- `ProcessChildren` (lines 90–116): the reconcile pass. -/
def ProcessChildren (c : LifetimeController) (children : ReactChildren) :
    LifetimeController :=
  children.foldl processNewChild (processPhase1 c children)

/-! ### Rendering (`RenderComponents`, lines 117–134) -/

/-- `props[LifetimeInternal] = this; props[UIDInternal] = uid;`
(lines 124–125): two property writes on the props record. -/
def injectTokens (props : Props) (uid : Nat) : Props :=
  AList.set (AList.set props .lifetimeInternal .controllerRef) .uidInternal (.uidVal uid)

/-- One item of `RenderComponents`' output: the single-entry inner map
`child` keyed by `component.Key`, wrapped in a `React.Fragment`
(lines 120–131). -/
structure RenderItem : Type where
  innerKey : LKey
  element : RElem
deriving DecidableEq, Repr

/-- The value stored under `uid` in `renderedChildren` for one entry
(lines 120–129).  In the `props` branch the emitted element is
`React.createElement(element.type, { ...props })`: same `type`, a fresh copy
of the (just token-injected) props record. -/
def renderItemOf (p : Nat × ComponentState) : RenderItem :=
  match p.2.Element with
  | .comp ty props => ⟨p.2.Key, .comp ty (injectTokens props p.1)⟩
  | .leaf t => ⟨p.2.Key, .leaf t⟩

/-- The effect of lines 124–125 on the registry itself: the two writes go to
the props record of the stored (caller-owned) element object, so after the
pass the entry's `Element` carries the injected tokens.  Leaf elements are
left untouched. -/
def mutateComponent (uid : Nat) (comp : ComponentState) : ComponentState :=
  match comp.Element with
  | .comp ty props => { comp with Element := .comp ty (injectTokens props uid) }
  | .leaf _ => comp

/-- One entry of the entries map after the render pass. -/
def mutateEntry (p : Nat × ComponentState) : Nat × ComponentState :=
  (p.1, mutateComponent p.1 p.2)

/-- `RenderComponents` (lines 117–134): the output map `renderedChildren`
(one `set` per entry, iterating `AllComponents` in insertion order) together
with the controller as left after the pass (each `comp` entry's props record
mutated in place by the token writes). -/
def RenderComponents (c : LifetimeController) :
    List (Nat × RenderItem) × LifetimeController :=
  (c.AllComponents.foldl (fun acc p => AList.set acc p.1 (renderItemOf p)) [],
   { c with AllComponents := c.AllComponents.map mutateEntry })

end LifetimeController

/-! ### Hooks (`src/Component/LifetimeController.tsx`, lines 139–273)

Only the synchronous entry path of each hook is embedded: reading the
injected token out of the props record and the guard/raise behaviour.  A
raised runtime error is `Except.error`: `nilIndex` models the error raised
by `const { uid, controller } = useIntrinsicData(props)!` when
`useIntrinsicData` returned `undefined` (destructuring `undefined` is a
`TypeError` in JS, and the compiled Luau indexes `nil`), and by a method
call on a non-registry value; `invalidUsage` models the `throw "You cant
use ..."` statements. -/

inductive HookError : Type where
  | nilIndex
  | invalidUsage
deriving DecidableEq, Repr

/-- `IntrinsicData` (lines 139–142). -/
structure IntrinsicData : Type where
  uid : Option PropVal
  controller : Option PropVal
deriving DecidableEq, Repr

/-- `useIntrinsicData` (lines 144–150): `undefined` when either token field
is missing (every `PropVal` is truthy, so `!controller` is exactly
"controller is absent"). -/
def useIntrinsicData (props : Props) : Option IntrinsicData :=
  let uid := AList.get? props .uidInternal
  let controller := AList.get? props .lifetimeInternal
  if uid = none ∨ controller = none then none
  else some ⟨uid, controller⟩

/-- `useComponentIsActive` (lines 157–161).  The first step is the
destructuring of `useIntrinsicData(props)!`, which raises when the result is
`undefined`; only then comes the (therefore unreachable) fail-open guard
`if (uid === undefined || !controller) return true`.  When the stored
controller token is not a registry reference, the method call
`controller.IsComponentActive(uid)` raises; when the uid token is not an
identity string, the `AllComponents` lookup simply misses and the call
returns false. -/
def useComponentIsActive (ctrl : LifetimeController) (props : Props) :
    Except HookError Bool :=
  match useIntrinsicData props with
  | none => .error .nilIndex
  | some d =>
    if d.uid = none ∨ d.controller = none then .ok true
    else if d.controller = some .controllerRef then
      match d.uid with
      | some (.uidVal u) => .ok (ctrl.IsComponentActive u)
      | _ => .ok false
    else .error .nilIndex

/-- The token check shared by the removal-strategy hooks, here of
`useComponentLifetime` (lines 181–187): destructure
`useIntrinsicData(props)!` (raising `nilIndex` when it is `undefined`),
then the guard that would `throw` the invalid-usage message. -/
def useComponentLifetimeGuard (props : Props) : Except HookError Unit :=
  match useIntrinsicData props with
  | none => .error .nilIndex
  | some d =>
    if d.uid = none ∨ d.controller = none then .error .invalidUsage
    else .ok ()

/-- The same token check as performed by `useDeferLifetime`
(lines 220–226). -/
def useDeferLifetimeGuard (props : Props) : Except HookError Unit :=
  match useIntrinsicData props with
  | none => .error .nilIndex
  | some d =>
    if d.uid = none ∨ d.controller = none then .error .invalidUsage
    else .ok ()

/-- The same token check as performed by `useLifetimeAsync`
(lines 250–256). -/
def useLifetimeAsyncGuard (props : Props) : Except HookError Unit :=
  match useIntrinsicData props with
  | none => .error .nilIndex
  | some d =>
    if d.uid = none ∨ d.controller = none then .error .invalidUsage
    else .ok ()

/-! ### Well-formedness invariant and reachable states -/

/-- Every entry of the entries map is stored under its own `UID`, and every
`UID` handed out so far is below the generator counter (GUIDs are globally
unique and never reused). -/
abbrev EntriesWF (c : LifetimeController) : Prop :=
  ∀ p ∈ c.AllComponents, p.2.UID = p.1 ∧ p.1 < c.nextUID

/-- Every binding `key → uid` refers to an existing entry whose `Key` is
that key. -/
abbrev BindingsWF (c : LifetimeController) : Prop :=
  ∀ q ∈ c.CurrentRendered,
    (AList.get? c.AllComponents q.2).map ComponentState.Key = some q.1

/-- Well-formedness of a registry state: both maps have unique keys (true of
any JS `Map`), entries sit under their own `UID`, and bindings are
coherent. -/
abbrev Inv (c : LifetimeController) : Prop :=
  (AList.keys c.AllComponents).Nodup ∧
  (AList.keys c.CurrentRendered).Nodup ∧
  EntriesWF c ∧ BindingsWF c

/-- The registry states reachable from a fresh controller through the public
mutating operations.  `setRecover` models the owner's per-pass write
`controller.CanRecover = props.CanRecover ?? false` in
`LifetimeComponent`. -/
inductive Reachable : LifetimeController → Prop where
  | init : Reachable initController
  | setRecover (c : LifetimeController) (flag : Bool) :
      Reachable c → Reachable { c with CanRecover := flag }
  | process (c : LifetimeController) (children : ReactChildren) :
      Reachable c → Reachable (c.ProcessChildren children)
  | registry (c : LifetimeController) (element : RElem) (key : LKey) :
      Reachable c → Reachable (c.RegistryComponent element key)
  | update (c : LifetimeController) (uid : Nat) (element : RElem) :
      Reachable c → Reachable (c.UpdateComponent uid element)
  | unlist (c : LifetimeController) (uid : Nat) :
      Reachable c → Reachable (c.UnlistComponent uid).1

/-! ### Supporting lemmas -/

namespace AList

variable {α β : Type} [DecidableEq α]

theorem mem_of_mem_set (l : List (α × β)) (k : α) (v : β) (q : α × β)
    (hq : q ∈ set l k v) : q = (k, v) ∨ q ∈ l := by
  induction l with
  | nil =>
    rw [set, List.mem_singleton] at hq
    exact Or.inl hq
  | cons p t ih =>
    by_cases hp : p.1 = k
    · rw [set, if_pos hp, List.mem_cons] at hq
      rcases hq with h | h
      · exact Or.inl h
      · exact Or.inr (List.mem_cons_of_mem p h)
    · rw [set, if_neg hp, List.mem_cons] at hq
      rcases hq with h | h
      · exact Or.inr (h ▸ List.mem_cons_self p t)
      · rcases ih h with h' | h'
        · exact Or.inl h'
        · exact Or.inr (List.mem_cons_of_mem p h')

theorem get?_lt_of_isSome {m : List (Nat × β)} {u bound : Nat}
    (hb : ∀ p ∈ m, p.1 < bound) (h : (get? m u).isSome) : u < bound := by
  rw [get?_isSome_iff_mem_keys, mem_keys_iff] at h
  obtain ⟨p, hp, hp1⟩ := h
  exact hp1 ▸ hb p hp

end AList

namespace LifetimeController

theorem keys_updateElem (m : List (Nat × ComponentState)) (u : Nat) (e : RElem) :
    AList.keys (updateElem m u e) = AList.keys m := by
  rw [updateElem]
  cases h : AList.get? m u with
  | none => rfl
  | some component => exact AList.keys_set_of_some m u _ (by simp [h])

theorem get?_updateElem_ne (m : List (Nat × ComponentState)) (u u' : Nat)
    (e : RElem) (h : u' ≠ u) :
    AList.get? (updateElem m u e) u' = AList.get? m u' := by
  rw [updateElem]
  cases hm : AList.get? m u with
  | none => rfl
  | some component => exact AList.get?_set_ne m u u' _ h

theorem get?_updateElem_self (m : List (Nat × ComponentState)) (u : Nat)
    (e : RElem) :
    AList.get? (updateElem m u e) u
      = (AList.get? m u).map (fun component => { component with Element := e }) := by
  rw [updateElem]
  cases hm : AList.get? m u with
  | none => simp [hm]
  | some component => simp [AList.get?_set_self]

theorem get?_updateElem_keyuid (m : List (Nat × ComponentState)) (u u' : Nat)
    (e : RElem) :
    (AList.get? (updateElem m u e) u').map (fun cst => (cst.Key, cst.UID))
      = (AList.get? m u').map (fun cst => (cst.Key, cst.UID)) := by
  by_cases h : u' = u
  · subst h
    rw [get?_updateElem_self]
    cases AList.get? m u' <;> rfl
  · rw [get?_updateElem_ne m u u' e h]

/-- `GetRenderedComponentByKey` returns a component stored in the map whose
`Key` is the requested key. -/
theorem getRenderedComponentByKey_spec (c : LifetimeController) (key : LKey)
    (component : ComponentState)
    (h : c.GetRenderedComponentByKey key = some component) :
    component.Key = key ∧ ∃ u, (u, component) ∈ c.AllComponents := by
  rw [GetRenderedComponentByKey] at h
  cases hf : c.AllComponents.find? (fun p => p.2.Key = key) with
  | none => rw [hf] at h; simp at h
  | some q =>
    rw [hf] at h
    simp at h
    have hq := List.find?_some hf
    have hqm := List.mem_of_find?_eq_some hf
    simp at hq
    exact ⟨h ▸ hq, q.1, by rw [← h]; exact hqm⟩

theorem getRenderedComponentByKey_isSome (c : LifetimeController) (key : LKey)
    (h : ∃ p ∈ c.AllComponents, p.2.Key = key) :
    (c.GetRenderedComponentByKey key).isSome := by
  rw [GetRenderedComponentByKey]
  rw [Option.isSome_map']
  rw [List.find?_isSome]
  obtain ⟨p, hp, hk⟩ := h
  exact ⟨p, hp, by simp [hk]⟩

theorem entriesWF_get? (c : LifetimeController) (hE : EntriesWF c) (u : Nat)
    (comp : ComponentState) (h : AList.get? c.AllComponents u = some comp) :
    comp.UID = u ∧ u < c.nextUID :=
  hE (u, comp) (AList.get?_mem _ _ _ h)

theorem get?_nextUID (c : LifetimeController) (hE : EntriesWF c) :
    AList.get? c.AllComponents c.nextUID = none := by
  rw [AList.get?_eq_none_iff]
  intro p hp he
  exact absurd (hE p hp).2 (by rw [he]; exact lt_irrefl _)

theorem bindingsWF_get? (c : LifetimeController) (hB : BindingsWF c) (k : LKey)
    (u : Nat) (h : AList.get? c.CurrentRendered k = some u) :
    ∃ comp, AList.get? c.AllComponents u = some comp ∧ comp.Key = k := by
  have hq := hB (k, u) (AList.get?_mem _ _ _ h)
  cases hg : AList.get? c.AllComponents u with
  | none => rw [hg] at hq; simp at hq
  | some comp =>
    rw [hg] at hq
    simp at hq
    exact ⟨comp, rfl, hq⟩

theorem map_key_of_keyuid {o o' : Option ComponentState}
    (h : o.map (fun cst => (cst.Key, cst.UID))
       = o'.map (fun cst => (cst.Key, cst.UID))) :
    o.map ComponentState.Key = o'.map ComponentState.Key := by
  cases o <;> cases o' <;> simp_all

theorem getRendered_none (c : LifetimeController) (comp : ComponentState)
    (h : AList.get? c.CurrentRendered comp.Key = none) :
    c.GetRendered comp = none := by
  simp [GetRendered, h]

theorem getRendered_mismatch (c : LifetimeController) (comp : ComponentState)
    (rk : Nat) (h : AList.get? c.CurrentRendered comp.Key = some rk)
    (hne : rk ≠ comp.UID) : c.GetRendered comp = none := by
  simp [GetRendered, h, hne]

theorem getRendered_hit (c : LifetimeController) (comp : ComponentState)
    (h : AList.get? c.CurrentRendered comp.Key = some comp.UID) :
    c.GetRendered comp = some comp.Key := by
  simp [GetRendered, h]

theorem isActive_no_entry (c : LifetimeController) (u : Nat)
    (h : AList.get? c.AllComponents u = none) :
    c.IsComponentActive u = false := by
  simp [IsComponentActive, GetComponent, h]

theorem isActive_entry (c : LifetimeController) (u : Nat)
    (comp : ComponentState) (h : AList.get? c.AllComponents u = some comp) :
    c.IsComponentActive u
      = match c.GetRendered comp with
        | none => false
        | some render => AList.get? c.CurrentRendered render == some u := by
  simp [IsComponentActive, GetComponent, h]

/-- Characterization of `IsComponentActive`: the uid names an entry that is
stored under its own `UID` and whose key currently binds to it. -/
theorem isActive_iff (c : LifetimeController) (u : Nat) :
    c.IsComponentActive u = true ↔
      ∃ comp, AList.get? c.AllComponents u = some comp ∧ comp.UID = u ∧
        AList.get? c.CurrentRendered comp.Key = some u := by
  cases hg : AList.get? c.AllComponents u with
  | none =>
    rw [isActive_no_entry c u hg]
    simp
  | some comp =>
    rw [isActive_entry c u comp hg]
    cases hr : AList.get? c.CurrentRendered comp.Key with
    | none =>
      rw [getRendered_none c comp hr]
      show (false = true) ↔ _
      simp only [Bool.false_eq_true, false_iff]
      rintro ⟨comp', hc', hu', hcr'⟩
      injection hc' with hce
      subst hce
      rw [hr] at hcr'
      exact absurd hcr' (by simp)
    | some rk =>
      by_cases hrk : rk = comp.UID
      · subst hrk
        rw [getRendered_hit c comp hr]
        show (AList.get? c.CurrentRendered comp.Key == some u) = true ↔ _
        rw [beq_iff_eq, hr]
        constructor
        · intro hb
          injection hb with hbe
          exact ⟨comp, rfl, hbe, by rw [hr, hbe]⟩
        · rintro ⟨comp', hc', hu', hcr'⟩
          injection hc' with hce
          subst hce
          rw [hr] at hcr'
          injection hcr' with hre
          rw [hre]
      · rw [getRendered_mismatch c comp rk hr hrk]
        show (false = true) ↔ _
        simp only [Bool.false_eq_true, false_iff]
        rintro ⟨comp', hc', hu', hcr'⟩
        injection hc' with hce
        subst hce
        rw [hr] at hcr'
        injection hcr' with hre
        exact hrk (hre.trans hu'.symm)

theorem registry_AC (c : LifetimeController) (e : RElem) (k : LKey) :
    (c.RegistryComponent e k).AllComponents
      = AList.set c.AllComponents c.nextUID ⟨k, e, c.nextUID⟩ := rfl

theorem registry_CR (c : LifetimeController) (e : RElem) (k : LKey) :
    (c.RegistryComponent e k).CurrentRendered
      = AList.set c.CurrentRendered k c.nextUID := rfl

theorem registry_next (c : LifetimeController) (e : RElem) (k : LKey) :
    (c.RegistryComponent e k).nextUID = c.nextUID + 1 := rfl

theorem update_AC (c : LifetimeController) (u : Nat) (e : RElem) :
    (c.UpdateComponent u e).AllComponents = updateElem c.AllComponents u e := rfl

theorem update_CR (c : LifetimeController) (u : Nat) (e : RElem) :
    (c.UpdateComponent u e).CurrentRendered = c.CurrentRendered := rfl

theorem update_next (c : LifetimeController) (u : Nat) (e : RElem) :
    (c.UpdateComponent u e).nextUID = c.nextUID := rfl

theorem inv_registry (c : LifetimeController) (e : RElem) (k : LKey)
    (h : Inv c) : Inv (c.RegistryComponent e k) := by
  obtain ⟨hndA, hndB, hE, hB⟩ := h
  have hfresh : AList.get? c.AllComponents c.nextUID = none := get?_nextUID c hE
  refine ⟨?_, ?_, ?_, ?_⟩
  · rw [registry_AC]
    exact AList.nodup_keys_set _ _ _ hndA
  · rw [registry_CR]
    exact AList.nodup_keys_set _ _ _ hndB
  · intro p hp
    rw [registry_AC] at hp
    rw [registry_next]
    rcases AList.mem_of_mem_set _ _ _ p hp with h1 | h1
    · subst h1
      exact ⟨rfl, Nat.lt_succ_self _⟩
    · obtain ⟨h2, h3⟩ := hE p h1
      exact ⟨h2, Nat.lt_succ_of_lt h3⟩
  · intro q hq
    rw [registry_CR] at hq
    rw [registry_AC]
    rcases AList.mem_of_mem_set _ _ _ q hq with h1 | h1
    · subst h1
      rw [AList.get?_set_self]
      rfl
    · have hq' := hB q h1
      have hsome : (AList.get? c.AllComponents q.2).isSome := by
        cases hg : AList.get? c.AllComponents q.2 with
        | none => rw [hg] at hq'; simp at hq'
        | some _ => rfl
      have hlt : q.2 < c.nextUID :=
        AList.get?_lt_of_isSome (fun p hp => (hE p hp).2) hsome
      rw [AList.get?_set_ne _ _ _ _ (Nat.ne_of_lt hlt)]
      exact hq'

theorem inv_update (c : LifetimeController) (u : Nat) (e : RElem)
    (h : Inv c) : Inv (c.UpdateComponent u e) := by
  obtain ⟨hndA, hndB, hE, hB⟩ := h
  refine ⟨?_, ?_, ?_, ?_⟩
  · rw [update_AC, keys_updateElem]
    exact hndA
  · exact hndB
  · intro p hp
    rw [update_AC, updateElem] at hp
    rw [update_next]
    cases hg : AList.get? c.AllComponents u with
    | none =>
      rw [hg] at hp
      exact hE p hp
    | some comp =>
      rw [hg] at hp
      rcases AList.mem_of_mem_set _ _ _ p hp with h1 | h1
      · subst h1
        obtain ⟨h2, h3⟩ := entriesWF_get? c hE u comp hg
        exact ⟨h2, h3⟩
      · exact hE p h1
  · intro q hq
    rw [update_CR] at hq
    rw [update_AC]
    have hq' := hB q hq
    exact (map_key_of_keyuid (get?_updateElem_keyuid c.AllComponents u q.2 e)).trans hq'

theorem inv_unlist (c : LifetimeController) (u : Nat) (h : Inv c) :
    Inv (c.UnlistComponent u).1 := by
  obtain ⟨hndA, hndB, hE, hB⟩ := h
  rw [UnlistComponent]
  by_cases ha : c.IsComponentActive u
  · rw [if_pos ha]
    exact ⟨hndA, hndB, hE, hB⟩
  · rw [if_neg ha]
    rw [RemoveRenderedByUID, GetComponent]
    cases hg : AList.get? c.AllComponents u with
    | none =>
      dsimp only
      have hdel : AList.del c.AllComponents u = c.AllComponents :=
        AList.del_eq_self_of_none _ _ hg
      exact ⟨by rw [hdel]; exact hndA, hndB, fun p hp => hE p (by rwa [hdel] at hp),
        fun q hq => by rw [hdel]; exact hB q hq⟩
    | some comp =>
      dsimp only
      by_cases hgb : AList.get? c.CurrentRendered comp.Key = some u
      · rw [if_pos (by simp [hgb])]
        dsimp only
        refine ⟨AList.nodup_keys_del _ _ hndA, AList.nodup_keys_del _ _ hndB,
          ?_, ?_⟩
        · intro p hp
          exact hE p ((AList.del_sublist _ _).subset hp)
        · intro q hq
          have hq' := hB q ((AList.del_sublist _ _).subset hq)
          have hqu : q.2 ≠ u := by
            intro he
            rw [he, hg] at hq'
            simp at hq'
            have hqck : q.1 = comp.Key := hq'.symm
            have : AList.get? (AList.del c.CurrentRendered comp.Key) comp.Key
                = none := AList.get?_del_self_of_nodup _ _ hndB
            rw [AList.get?_eq_none_iff] at this
            exact this q hq (by rw [hqck])
          rw [AList.get?_del_ne _ _ _ hqu]
          exact hq'
      · rw [if_neg (by simp [hgb])]
        refine ⟨AList.nodup_keys_del _ _ hndA, hndB, ?_, ?_⟩
        · intro p hp
          exact hE p ((AList.del_sublist _ _).subset hp)
        · intro q hq
          have hq' := hB q hq
          have hqu : q.2 ≠ u := by
            intro he
            rw [he, hg] at hq'
            simp at hq'
            have hqck : q.1 = comp.Key := hq'.symm
            exact hgb (by
              rw [← hqck, ← he]
              exact AList.get?_of_mem_of_nodup _ _ _ hq hndB)
          rw [AList.get?_del_ne _ _ _ hqu]
          exact hq'

/-- At most one entry can be active per logical key (no invariant needed:
activity pins the binding of the entry's key to its uid, and a map lookup is
single-valued). -/
theorem active_unique (c : LifetimeController) (u1 u2 : Nat)
    (comp1 comp2 : ComponentState)
    (h1 : AList.get? c.AllComponents u1 = some comp1)
    (h2 : AList.get? c.AllComponents u2 = some comp2)
    (hk : comp1.Key = comp2.Key)
    (ha1 : c.IsComponentActive u1 = true)
    (ha2 : c.IsComponentActive u2 = true) : u1 = u2 := by
  obtain ⟨c1, hg1, hu1, hcr1⟩ := (isActive_iff c u1).mp ha1
  obtain ⟨c2, hg2, hu2, hcr2⟩ := (isActive_iff c u2).mp ha2
  rw [h1] at hg1
  rw [h2] at hg2
  injection hg1 with he1
  injection hg2 with he2
  subst he1
  subst he2
  rw [hk] at hcr1
  rw [hcr1] at hcr2
  injection hcr2

theorem processOldChild_none (children : ReactChildren)
    (acc : List (LKey × Nat) × List (Nat × ComponentState)) (q : LKey × Nat)
    (h : AList.get? children q.1 = none) :
    processOldChild children acc q = acc := by
  simp [processOldChild, h]

theorem processOldChild_some (children : ReactChildren)
    (acc : List (LKey × Nat) × List (Nat × ComponentState)) (q : LKey × Nat)
    (ch : RElem) (h : AList.get? children q.1 = some ch) :
    processOldChild children acc q
      = (AList.set acc.1 q.1 q.2, updateElem acc.2 q.2 ch) := by
  simp [processOldChild, h]

theorem foldl_processOld_bind (children : ReactChildren)
    (rb b : List (LKey × Nat)) (m : List (Nat × ComponentState))
    (hnd : (AList.keys rb).Nodup)
    (hfresh : ∀ q ∈ rb, AList.get? b q.1 = none) :
    (rb.foldl (processOldChild children) (b, m)).1
      = b ++ rb.filter (fun q => (AList.get? children q.1).isSome) := by
  induction rb generalizing b m with
  | nil => simp
  | cons q t ih =>
    rw [AList.keys_cons, List.nodup_cons] at hnd
    rw [List.foldl_cons]
    cases hc : AList.get? children q.1 with
    | none =>
      rw [processOldChild_none children _ q hc,
        List.filter_cons_of_neg (by simp [hc])]
      exact ih b m hnd.2 (fun p hp => hfresh p (List.mem_cons_of_mem q hp))
    | some ch =>
      rw [processOldChild_some children _ q ch hc,
        List.filter_cons_of_pos (by simp [hc])]
      have hstep : AList.set b q.1 q.2 = b ++ [q] := by
        rw [AList.set_eq_append b q.1 q.2 (hfresh q (List.mem_cons_self q t))]
      rw [hstep]
      have hfresh' : ∀ p ∈ t, AList.get? (b ++ [q]) p.1 = none := by
        intro p hp
        have hne : q.1 ≠ p.1 := by
          intro he
          refine hnd.1 ?_
          rw [AList.mem_keys_iff]
          exact ⟨p, hp, he.symm⟩
        rw [AList.get?_append_right b [q] p.1 (hfresh p (List.mem_cons_of_mem q hp))]
        rw [AList.get?_cons, if_neg hne]
        rfl
      rw [ih (b ++ [q]) (updateElem m q.2 ch) hnd.2 hfresh']
      rw [List.append_assoc, List.singleton_append]

theorem foldl_processOld_comps_keys (children : ReactChildren)
    (rb b : List (LKey × Nat)) (m : List (Nat × ComponentState)) :
    AList.keys (rb.foldl (processOldChild children) (b, m)).2 = AList.keys m := by
  induction rb generalizing b m with
  | nil => rfl
  | cons q t ih =>
    rw [List.foldl_cons]
    cases hc : AList.get? children q.1 with
    | none =>
      rw [processOldChild_none children _ q hc]
      exact ih b m
    | some ch =>
      rw [processOldChild_some children _ q ch hc]
      rw [ih _ _, keys_updateElem]

theorem foldl_processOld_comps_keyuid (children : ReactChildren)
    (rb b : List (LKey × Nat)) (m : List (Nat × ComponentState)) (u : Nat) :
    (AList.get? (rb.foldl (processOldChild children) (b, m)).2 u).map
        (fun cst => (cst.Key, cst.UID))
      = (AList.get? m u).map (fun cst => (cst.Key, cst.UID)) := by
  induction rb generalizing b m with
  | nil => rfl
  | cons q t ih =>
    rw [List.foldl_cons]
    cases hc : AList.get? children q.1 with
    | none =>
      rw [processOldChild_none children _ q hc]
      exact ih b m
    | some ch =>
      rw [processOldChild_some children _ q ch hc]
      exact (ih _ _).trans (get?_updateElem_keyuid m q.2 u ch)

theorem foldl_processOld_comps_untouched (children : ReactChildren)
    (rb b : List (LKey × Nat)) (m : List (Nat × ComponentState)) (u : Nat)
    (h : ∀ q ∈ rb, q.2 = u → AList.get? children q.1 = none) :
    AList.get? (rb.foldl (processOldChild children) (b, m)).2 u
      = AList.get? m u := by
  induction rb generalizing b m with
  | nil => rfl
  | cons q t ih =>
    rw [List.foldl_cons]
    cases hc : AList.get? children q.1 with
    | none =>
      rw [processOldChild_none children _ q hc]
      exact ih b m (fun p hp => h p (List.mem_cons_of_mem q hp))
    | some ch =>
      rw [processOldChild_some children _ q ch hc]
      have hqu : q.2 ≠ u := by
        intro he
        rw [h q (List.mem_cons_self q t) he] at hc
        exact Option.noConfusion hc
      rw [ih _ _ (fun p hp => h p (List.mem_cons_of_mem q hp))]
      exact get?_updateElem_ne m q.2 u ch (fun he => hqu he.symm)

theorem foldl_processOld_comps_rebound (children : ReactChildren)
    (rb b : List (LKey × Nat)) (m : List (Nat × ComponentState)) (k : LKey)
    (u : Nat) (comp : ComponentState) (ch : RElem)
    (hnd : (AList.keys rb).Nodup)
    (hmem : (k, u) ∈ rb)
    (hudup : ∀ q ∈ rb, q.2 = u → q = (k, u))
    (hch : AList.get? children k = some ch)
    (hm : AList.get? m u = some comp) :
    AList.get? (rb.foldl (processOldChild children) (b, m)).2 u
      = some { comp with Element := ch } := by
  induction rb generalizing b m with
  | nil => simp at hmem
  | cons q t ih =>
    rw [AList.keys_cons, List.nodup_cons] at hnd
    rw [List.foldl_cons]
    rcases List.mem_cons.mp hmem with hh | hh
    · subst hh
      rw [processOldChild_some children _ (k, u) ch hch]
      rw [foldl_processOld_comps_untouched children t _ _ u ?_]
      · rw [get?_updateElem_self m u ch, hm]
        rfl
      · intro p hp hpu
        have hpk := hudup p (List.mem_cons_of_mem _ hp) hpu
        subst hpk
        exact absurd (by rw [AList.mem_keys_iff]; exact ⟨(k, u), hp, rfl⟩) hnd.1
    · have hqu : q.2 ≠ u := by
        intro he
        have hqk := hudup q (List.mem_cons_self q t) he
        rw [hqk] at hnd
        exact hnd.1 (by rw [AList.mem_keys_iff]; exact ⟨(k, u), hh, rfl⟩)
      have hudup' : ∀ p ∈ t, p.2 = u → p = (k, u) :=
        fun p hp => hudup p (List.mem_cons_of_mem q hp)
      cases hc : AList.get? children q.1 with
      | none =>
        rw [processOldChild_none children _ q hc]
        exact ih b m hnd.2 hh hudup' hm
      | some ch' =>
        rw [processOldChild_some children _ q ch' hc]
        refine ih _ _ hnd.2 hh hudup' ?_
        rw [get?_updateElem_ne m q.2 u ch' (fun he => hqu he.symm)]
        exact hm

theorem processPhase1_CR (c : LifetimeController) (children : ReactChildren)
    (hndB : (AList.keys c.CurrentRendered).Nodup) :
    (c.processPhase1 children).CurrentRendered
      = c.CurrentRendered.filter (fun q => (AList.get? children q.1).isSome) := by
  show (c.CurrentRendered.foldl (processOldChild children)
      ([], c.AllComponents)).1 = _
  rw [foldl_processOld_bind children c.CurrentRendered [] c.AllComponents hndB
    (fun q hq => rfl)]
  rw [List.nil_append]

theorem processPhase1_AC_keys (c : LifetimeController) (children : ReactChildren) :
    AList.keys (c.processPhase1 children).AllComponents
      = AList.keys c.AllComponents := by
  show AList.keys (c.CurrentRendered.foldl (processOldChild children)
      ([], c.AllComponents)).2 = _
  exact foldl_processOld_comps_keys children c.CurrentRendered [] c.AllComponents

theorem processPhase1_AC_keyuid (c : LifetimeController)
    (children : ReactChildren) (u : Nat) :
    (AList.get? (c.processPhase1 children).AllComponents u).map
        (fun cst => (cst.Key, cst.UID))
      = (AList.get? c.AllComponents u).map (fun cst => (cst.Key, cst.UID)) := by
  show (AList.get? (c.CurrentRendered.foldl (processOldChild children)
      ([], c.AllComponents)).2 u).map _ = _
  exact foldl_processOld_comps_keyuid children c.CurrentRendered []
    c.AllComponents u

theorem processPhase1_next (c : LifetimeController) (children : ReactChildren) :
    (c.processPhase1 children).nextUID = c.nextUID := rfl

theorem processPhase1_flag (c : LifetimeController) (children : ReactChildren) :
    (c.processPhase1 children).CanRecover = c.CanRecover := rfl

theorem inv_phase1 (c : LifetimeController) (children : ReactChildren)
    (h : Inv c) : Inv (c.processPhase1 children) := by
  obtain ⟨hndA, hndB, hE, hB⟩ := h
  have hkeys := processPhase1_AC_keys c children
  refine ⟨?_, ?_, ?_, ?_⟩
  · rw [hkeys]
    exact hndA
  · rw [processPhase1_CR c children hndB]
    exact List.Nodup.sublist (List.Sublist.map Prod.fst (List.filter_sublist _)) hndB
  · intro p hp
    have hnd' : (AList.keys (c.processPhase1 children).AllComponents).Nodup := by
      rw [hkeys]; exact hndA
    have hg' : AList.get? (c.processPhase1 children).AllComponents p.1 = some p.2 :=
      AList.get?_of_mem_of_nodup _ _ _ hp hnd'
    have hku := processPhase1_AC_keyuid c children p.1
    rw [hg'] at hku
    cases hg0 : AList.get? c.AllComponents p.1 with
    | none => rw [hg0] at hku; simp at hku
    | some comp0 =>
      rw [hg0] at hku
      simp at hku
      obtain ⟨h2, h3⟩ := entriesWF_get? c hE p.1 comp0 hg0
      rw [processPhase1_next]
      exact ⟨hku.2 ▸ h2, h3⟩
  · intro q hq
    rw [processPhase1_CR c children hndB] at hq
    have hq0 := List.mem_of_mem_filter hq
    have hq' := hB q hq0
    exact (map_key_of_keyuid (processPhase1_AC_keyuid c children q.2)).trans hq'

theorem processNewChild_skip (c : LifetimeController) (p : LKey × RElem) (u : Nat)
    (h : AList.get? c.CurrentRendered p.1 = some u) :
    processNewChild c p = c := by
  simp [processNewChild, h]

theorem processNewChild_recover (c : LifetimeController) (p : LKey × RElem)
    (comp : ComponentState)
    (h : AList.get? c.CurrentRendered p.1 = none)
    (hrec : c.CanRecover = true)
    (hfind : c.GetRenderedComponentByKey p.1 = some comp) :
    processNewChild c p
      = { c.UpdateComponent comp.UID p.2 with
          CurrentRendered := AList.set c.CurrentRendered p.1 comp.UID } := by
  simp [processNewChild, h, hrec, hfind]
  rw [update_CR]

theorem processNewChild_fresh (c : LifetimeController) (p : LKey × RElem)
    (h : AList.get? c.CurrentRendered p.1 = none)
    (hno : c.CanRecover = false ∨ c.GetRenderedComponentByKey p.1 = none) :
    processNewChild c p = c.RegistryComponent p.2 p.1 := by
  rcases hno with hf | hn
  · simp [processNewChild, h, hf]
  · cases hrec : c.CanRecover
    · simp [processNewChild, h, hrec]
    · simp [processNewChild, h, hrec, hn]

theorem inv_processNewChild (c : LifetimeController) (p : LKey × RElem)
    (h : Inv c) : Inv (processNewChild c p) := by
  cases hb : AList.get? c.CurrentRendered p.1 with
  | some u =>
    rw [processNewChild_skip c p u hb]
    exact h
  | none =>
    cases hrec : c.CanRecover with
    | false =>
      rw [processNewChild_fresh c p hb (Or.inl hrec)]
      exact inv_registry c p.2 p.1 h
    | true =>
      cases hfind : c.GetRenderedComponentByKey p.1 with
      | none =>
        rw [processNewChild_fresh c p hb (Or.inr hfind)]
        exact inv_registry c p.2 p.1 h
      | some comp =>
        rw [processNewChild_recover c p comp hb hrec hfind]
        obtain ⟨hndA, hndB, hE, hB⟩ := h
        obtain ⟨hkeyk, u0, hmem0⟩ := getRenderedComponentByKey_spec c p.1 comp hfind
        have hu0 : comp.UID = u0 := (hE (u0, comp) hmem0).1
        have hg0 : AList.get? c.AllComponents comp.UID = some comp := by
          rw [hu0]
          exact AList.get?_of_mem_of_nodup _ _ _ hmem0 hndA
        obtain ⟨hndA', hndB', hE', hB'⟩ :=
          inv_update c comp.UID p.2 ⟨hndA, hndB, hE, hB⟩
        refine ⟨hndA', ?_, hE', ?_⟩
        · exact AList.nodup_keys_set _ _ _ hndB
        · intro q hq
          rcases AList.mem_of_mem_set _ _ _ q hq with h1 | h1
          · subst h1
            show (AList.get? (updateElem c.AllComponents comp.UID p.2)
                comp.UID).map ComponentState.Key = some p.1
            rw [get?_updateElem_self, hg0]
            simp [hkeyk]
          · exact hB' q h1

theorem pnc_bind_some (c : LifetimeController) (p : LKey × RElem) (k : LKey)
    (u : Nat) (h : AList.get? c.CurrentRendered k = some u) :
    AList.get? (processNewChild c p).CurrentRendered k = some u := by
  cases hb : AList.get? c.CurrentRendered p.1 with
  | some u' =>
    rw [processNewChild_skip c p u' hb]
    exact h
  | none =>
    have hne : k ≠ p.1 := by
      intro he
      rw [← he, h] at hb
      exact Option.noConfusion hb
    cases hrec : c.CanRecover with
    | false =>
      rw [processNewChild_fresh c p hb (Or.inl hrec), registry_CR]
      rw [AList.get?_set_ne _ _ _ _ hne]
      exact h
    | true =>
      cases hfind : c.GetRenderedComponentByKey p.1 with
      | none =>
        rw [processNewChild_fresh c p hb (Or.inr hfind), registry_CR]
        rw [AList.get?_set_ne _ _ _ _ hne]
        exact h
      | some comp =>
        rw [processNewChild_recover c p comp hb hrec hfind]
        show AList.get? (AList.set c.CurrentRendered p.1 comp.UID) k = some u
        rw [AList.get?_set_ne _ _ _ _ hne]
        exact h

theorem pnc_bind_none_other (c : LifetimeController) (p : LKey × RElem)
    (k : LKey) (hk : p.1 ≠ k)
    (h : AList.get? c.CurrentRendered k = none) :
    AList.get? (processNewChild c p).CurrentRendered k = none := by
  have hne : k ≠ p.1 := fun he => hk he.symm
  cases hb : AList.get? c.CurrentRendered p.1 with
  | some u' =>
    rw [processNewChild_skip c p u' hb]
    exact h
  | none =>
    cases hrec : c.CanRecover with
    | false =>
      rw [processNewChild_fresh c p hb (Or.inl hrec), registry_CR]
      rw [AList.get?_set_ne _ _ _ _ hne]
      exact h
    | true =>
      cases hfind : c.GetRenderedComponentByKey p.1 with
      | none =>
        rw [processNewChild_fresh c p hb (Or.inr hfind), registry_CR]
        rw [AList.get?_set_ne _ _ _ _ hne]
        exact h
      | some comp =>
        rw [processNewChild_recover c p comp hb hrec hfind]
        show AList.get? (AList.set c.CurrentRendered p.1 comp.UID) k = none
        rw [AList.get?_set_ne _ _ _ _ hne]
        exact h

theorem pnc_comp_preserved (c : LifetimeController) (p : LKey × RElem)
    (u : Nat) (comp : ComponentState) (hInv : Inv c)
    (hc : AList.get? c.AllComponents u = some comp)
    (hk : comp.Key ≠ p.1) :
    AList.get? (processNewChild c p).AllComponents u = some comp := by
  obtain ⟨hndA, hndB, hE, hB⟩ := hInv
  have hlt : u < c.nextUID := (entriesWF_get? c hE u comp hc).2
  cases hb : AList.get? c.CurrentRendered p.1 with
  | some u' =>
    rw [processNewChild_skip c p u' hb]
    exact hc
  | none =>
    cases hrec : c.CanRecover with
    | false =>
      rw [processNewChild_fresh c p hb (Or.inl hrec), registry_AC]
      rw [AList.get?_set_ne _ _ _ _ (Nat.ne_of_lt hlt)]
      exact hc
    | true =>
      cases hfind : c.GetRenderedComponentByKey p.1 with
      | none =>
        rw [processNewChild_fresh c p hb (Or.inr hfind), registry_AC]
        rw [AList.get?_set_ne _ _ _ _ (Nat.ne_of_lt hlt)]
        exact hc
      | some comp' =>
        rw [processNewChild_recover c p comp' hb hrec hfind]
        obtain ⟨hkeyk, u0, hmem0⟩ := getRenderedComponentByKey_spec c p.1 comp' hfind
        have hu0 : comp'.UID = u0 := (hE (u0, comp') hmem0).1
        have hg0 : AList.get? c.AllComponents comp'.UID = some comp' := by
          rw [hu0]
          exact AList.get?_of_mem_of_nodup _ _ _ hmem0 hndA
        have hneq : u ≠ comp'.UID := by
          intro he
          rw [← he, hc] at hg0
          injection hg0 with hg0e
          rw [← hg0e] at hkeyk
          exact hk hkeyk
        show AList.get? (updateElem c.AllComponents comp'.UID p.2) u = some comp
        rw [get?_updateElem_ne _ _ _ _ hneq]
        exact hc

theorem foldl_pnc_preserve_bound (children : ReactChildren) :
    ∀ (c : LifetimeController) (k : LKey) (u : Nat) (comp : ComponentState),
    Inv c →
    AList.get? c.CurrentRendered k = some u →
    AList.get? c.AllComponents u = some comp → comp.Key = k →
    Inv (children.foldl processNewChild c) ∧
    AList.get? (children.foldl processNewChild c).CurrentRendered k = some u ∧
    AList.get? (children.foldl processNewChild c).AllComponents u = some comp := by
  induction children with
  | nil =>
    intro c k u comp h hb hc hk
    exact ⟨h, hb, hc⟩
  | cons p t ih =>
    intro c k u comp h hb hc hk
    rw [List.foldl_cons]
    by_cases hpk : p.1 = k
    · have hsk : AList.get? c.CurrentRendered p.1 = some u := by
        rw [hpk]
        exact hb
      rw [processNewChild_skip c p u hsk]
      exact ih c k u comp h hb hc hk
    · refine ih _ k u comp (inv_processNewChild c p h)
        (pnc_bind_some c p k u hb)
        (pnc_comp_preserved c p u comp h hc ?_) hk
      intro he
      exact hpk (hk.symm.trans he).symm

theorem foldl_pnc_preserve_detached (children : ReactChildren) :
    ∀ (c : LifetimeController) (k : LKey) (u : Nat) (comp : ComponentState),
    Inv c →
    (∀ p ∈ children, p.1 ≠ k) →
    AList.get? c.CurrentRendered k = none →
    AList.get? c.AllComponents u = some comp → comp.Key = k →
    Inv (children.foldl processNewChild c) ∧
    AList.get? (children.foldl processNewChild c).CurrentRendered k = none ∧
    AList.get? (children.foldl processNewChild c).AllComponents u = some comp := by
  induction children with
  | nil =>
    intro c k u comp h _ hb hc hk
    exact ⟨h, hb, hc⟩
  | cons p t ih =>
    intro c k u comp h hall hb hc hk
    rw [List.foldl_cons]
    have hpk := hall p (List.mem_cons_self p t)
    refine ih _ k u comp (inv_processNewChild c p h)
      (fun q hq => hall q (List.mem_cons_of_mem p hq))
      (pnc_bind_none_other c p k hpk hb)
      (pnc_comp_preserved c p u comp h hc ?_) hk
    intro he
    exact hpk (hk.symm.trans he).symm

theorem foldl_pnc_inv (children : ReactChildren) :
    ∀ c : LifetimeController, Inv c → Inv (children.foldl processNewChild c) := by
  induction children with
  | nil => exact fun c h => h
  | cons p t ih => exact fun c h => ih _ (inv_processNewChild c p h)

theorem inv_processChildren (c : LifetimeController) (children : ReactChildren)
    (h : Inv c) : Inv (c.ProcessChildren children) :=
  foldl_pnc_inv children _ (inv_phase1 c children h)

theorem inv_init : Inv initController :=
  ⟨List.nodup_nil, List.nodup_nil,
   fun p hp => absurd hp (List.not_mem_nil p),
   fun q hq => absurd hq (List.not_mem_nil q)⟩

theorem inv_reachable (c : LifetimeController) (h : Reachable c) : Inv c := by
  induction h with
  | init => exact inv_init
  | setRecover c flag hr ih => exact ih
  | process c children hr ih => exact inv_processChildren c children ih
  | registry c e k hr ih => exact inv_registry c e k ih
  | update c u e hr ih => exact inv_update c u e ih
  | unlist c u hr ih => exact inv_unlist c u ih

/-! ### Render output lemmas -/

theorem foldl_set_eq {γ : Type} (l : List (Nat × ComponentState))
    (f : Nat × ComponentState → γ) (acc : List (Nat × γ))
    (hnd : (AList.keys l).Nodup)
    (hfresh : ∀ p ∈ l, AList.get? acc p.1 = none) :
    l.foldl (fun a p => AList.set a p.1 (f p)) acc
      = acc ++ l.map (fun p => (p.1, f p)) := by
  induction l generalizing acc with
  | nil => simp
  | cons p t ih =>
    rw [AList.keys_cons, List.nodup_cons] at hnd
    rw [List.foldl_cons,
      AList.set_eq_append _ _ _ (hfresh p (List.mem_cons_self p t))]
    have hfresh' : ∀ q ∈ t, AList.get? (acc ++ [(p.1, f p)]) q.1 = none := by
      intro q hq
      have hne : p.1 ≠ q.1 := by
        intro he
        refine hnd.1 ?_
        rw [AList.mem_keys_iff]
        exact ⟨q, hq, he.symm⟩
      rw [AList.get?_append_right acc _ q.1 (hfresh q (List.mem_cons_of_mem p hq))]
      rw [AList.get?_cons, if_neg hne]
      rfl
    rw [ih (acc ++ [(p.1, f p)]) hnd.2 hfresh']
    rw [List.append_assoc, List.singleton_append, List.map_cons]

theorem renderComponents_out (c : LifetimeController)
    (hnd : (AList.keys c.AllComponents).Nodup) :
    (c.RenderComponents).1
      = c.AllComponents.map (fun p => (p.1, renderItemOf p)) := by
  show c.AllComponents.foldl _ [] = _
  rw [foldl_set_eq c.AllComponents renderItemOf [] hnd (fun p hp => rfl)]
  rw [List.nil_append]

theorem renderComponents_keys (c : LifetimeController)
    (hnd : (AList.keys c.AllComponents).Nodup) :
    AList.keys (c.RenderComponents).1 = AList.keys c.AllComponents := by
  rw [renderComponents_out c hnd]
  simp [AList.keys]

theorem mem_render_keys (c : LifetimeController)
    (hnd : (AList.keys c.AllComponents).Nodup) (u : Nat)
    (h : (AList.get? c.AllComponents u).isSome) :
    u ∈ AList.keys (c.RenderComponents).1 := by
  rw [renderComponents_keys c hnd]
  exact (AList.get?_isSome_iff_mem_keys _ _).mp h

theorem get?_map_pairfst {γ : Type} (l : List (Nat × ComponentState))
    (f : Nat × ComponentState → γ) (u : Nat) :
    AList.get? (l.map (fun p => (p.1, f p))) u
      = (AList.get? l u).map (fun comp => f (u, comp)) := by
  induction l with
  | nil => rfl
  | cons p t ih =>
    rw [List.map_cons, AList.get?_cons, AList.get?_cons]
    by_cases hp : p.1 = u
    · subst hp
      simp
    · simp [hp, ih]

theorem get?_map_mutate (l : List (Nat × ComponentState)) (u : Nat) :
    AList.get? (l.map mutateEntry) u
      = (AList.get? l u).map (mutateComponent u) := by
  exact get?_map_pairfst l (fun p => mutateComponent p.1 p.2) u

theorem renderComponents_AC (c : LifetimeController) :
    (c.RenderComponents).2.AllComponents = c.AllComponents.map mutateEntry := rfl

end LifetimeController

/-! ### Claim theorems -/

open LifetimeController

/-- C5: calling `UnlistComponent` on an identity whose entry is currently
active, or on an identity that names no entry, never raises (the embedded
operation is a total function) and leaves both `AllComponents` and
`CurrentRendered` unchanged — in particular the registry size is unchanged;
and whenever the call does change `AllComponents`, the identity named an
existing, detached entry. -/
theorem claim_C5_unlist_noop (c : LifetimeController) (uid : Nat) :
    ((c.IsComponentActive uid = true ∨ c.GetComponent uid = none) →
      (c.UnlistComponent uid).1.AllComponents = c.AllComponents ∧
      (c.UnlistComponent uid).1.CurrentRendered = c.CurrentRendered) ∧
    ((c.UnlistComponent uid).1.AllComponents ≠ c.AllComponents →
      c.IsComponentActive uid = false ∧ (c.GetComponent uid).isSome) := by
  constructor
  · rintro (ha | hg)
    · rw [UnlistComponent, if_pos ha]
      exact ⟨rfl, rfl⟩
    · have ha : c.IsComponentActive uid = false :=
        isActive_no_entry c uid hg
      rw [UnlistComponent, if_neg (by rw [ha]; exact Bool.false_ne_true)]
      rw [RemoveRenderedByUID, GetComponent]
      rw [show AList.get? c.AllComponents uid = none from hg]
      dsimp only
      exact ⟨AList.del_eq_self_of_none _ _ hg, rfl⟩
  · intro hchg
    by_cases ha : c.IsComponentActive uid = true
    · rw [UnlistComponent, if_pos ha] at hchg
      exact absurd rfl hchg
    · cases hg : c.GetComponent uid with
      | none =>
        rw [UnlistComponent,
          if_neg (by rw [isActive_no_entry c uid hg]; exact Bool.false_ne_true)]
          at hchg
        rw [RemoveRenderedByUID, GetComponent] at hchg
        rw [show AList.get? c.AllComponents uid = none from hg] at hchg
        dsimp only at hchg
        exact absurd (AList.del_eq_self_of_none _ _ hg) hchg
      | some comp =>
        exact ⟨Bool.not_eq_true _ ▸ ha, rfl⟩

/-- C7 (corrected): the change notifier (`this.Updater()`) is invoked by
`UnlistComponent` exactly when the identity is not currently active — the
source calls it unconditionally after the activity guard, so the notifier
also fires for identities that name no entry at all, where nothing is
structurally removed. -/
theorem claim_C7_notifier_iff_inactive (c : LifetimeController) (uid : Nat) :
    (c.UnlistComponent uid).2 = true ↔ c.IsComponentActive uid = false := by
  rw [UnlistComponent]
  by_cases ha : c.IsComponentActive uid = true
  · rw [if_pos ha, ha]
    simp
  · rw [if_neg ha]
    simp [Bool.not_eq_true _ ▸ ha]

/-- C7 counterexample: on a fresh controller, `UnlistComponent 0` names no
entry, removes nothing (`AllComponents` is unchanged), yet the notifier is
invoked — refuting "the notifier is invoked if and only if the call
structurally removes an entry" and "calls on an already-removed/nonexistent
identity do not invoke the notifier". -/
theorem claim_C7_cex :
    (initController.UnlistComponent 0).2 = true ∧
    (initController.UnlistComponent 0).1.AllComponents
      = initController.AllComponents := by
  decide

/-- C4: for every registry state (the hypotheses state that the underlying
JS `Map` has unique keys and that entries sit under their own `UID`, which
holds of every reachable state, see `claim_C10_binding_invariant`),
`RenderComponents` returns exactly one item per entry of `AllComponents`, in
insertion (entry-creation) order, and the physical key of each item is the
entry's `UID` — the items are `(UID, fragment)` pairs, so the physical key
is never the entry's `logicalKey`, also for detached entries (the output is
built from `AllComponents` alone, with no reference to the bindings). -/
theorem claim_C4_render_shape (c : LifetimeController)
    (hnd : (AList.keys c.AllComponents).Nodup)
    (hu : ∀ p ∈ c.AllComponents, p.2.UID = p.1) :
    (c.RenderComponents).1
      = c.AllComponents.map (fun p => (p.1, renderItemOf p)) ∧
    (c.RenderComponents).1.length = c.AllComponents.length ∧
    AList.keys (c.RenderComponents).1
      = c.AllComponents.map (fun p => p.2.UID) := by
  have hout := renderComponents_out c hnd
  refine ⟨hout, by rw [hout]; simp, ?_⟩
  rw [renderComponents_keys c hnd]
  show c.AllComponents.map Prod.fst = _
  exact List.map_congr_left (fun p hp => (hu p hp).symm)

/-- A one-entry controller whose entry's element carries a props record,
built by a reconcile pass from the fresh state. -/
def samplePropsState : LifetimeController :=
  initController.ProcessChildren [(.str "A", .comp 5 [(.user 0, .userVal 1)])]

/-- C6 counterexample: after one `RenderComponents` pass, the props record
of the stored, caller-owned element of entry `0` has gained the two token
fields (the source writes `props[LifetimeInternal] = this;
props[UIDInternal] = uid;` directly on `element.props` before copying it
into the new element) — refuting "the caller-owned content object and its
original props record are left unmodified (no fields added to the original
props)". -/
theorem claim_C6_cex :
    (AList.get? samplePropsState.AllComponents 0).map ComponentState.Element
      = some (.comp 5 [(.user 0, .userVal 1)]) ∧
    (AList.get? (samplePropsState.RenderComponents).2.AllComponents 0).map
        ComponentState.Element
      = some (.comp 5 [(.user 0, .userVal 1), (.lifetimeInternal, .controllerRef),
          (.uidInternal, .uidVal 0)]) := by
  decide

/-- C6 (corrected): `RenderComponents` emits, for each entry with a props
record, a new element whose input record is the entry's props record with
the two token fields (registry reference and identity) merged in, keeping
all pre-existing user fields; but the two fields are written into the
caller-owned props record itself (the stored element after the pass carries
them too), rather than leaving the original unmodified. -/
theorem claim_C6_token_injection (c : LifetimeController) (uid : Nat)
    (comp : ComponentState) (ty : Nat) (props : Props)
    (hnd : (AList.keys c.AllComponents).Nodup)
    (hc : AList.get? c.AllComponents uid = some comp)
    (he : comp.Element = .comp ty props) :
    AList.get? (c.RenderComponents).1 uid
      = some ⟨comp.Key, .comp ty (injectTokens props uid)⟩ ∧
    AList.get? (injectTokens props uid) .uidInternal = some (.uidVal uid) ∧
    AList.get? (injectTokens props uid) .lifetimeInternal
      = some .controllerRef ∧
    (∀ pk v, AList.get? props pk = some v → pk ≠ .uidInternal →
      pk ≠ .lifetimeInternal →
      AList.get? (injectTokens props uid) pk = some v) ∧
    AList.get? (c.RenderComponents).2.AllComponents uid
      = some { comp with Element := .comp ty (injectTokens props uid) } := by
  refine ⟨?_, ?_, ?_, ?_, ?_⟩
  · rw [renderComponents_out c hnd, get?_map_pairfst, hc]
    simp [renderItemOf, he]
  · rw [injectTokens, AList.get?_set_self]
  · rw [injectTokens, AList.get?_set_ne _ _ _ _ (by decide), AList.get?_set_self]
  · intro pk v hv h1 h2
    rw [injectTokens, AList.get?_set_ne _ _ _ _ h1, AList.get?_set_ne _ _ _ _ h2]
    exact hv
  · rw [renderComponents_AC, get?_map_mutate, hc]
    simp [mutateComponent, he]

/-- The registry after: create "A" (uid 0), detach it, create "A" again
(uid 1, recovery off), detach it, then enable recovery.  Both entries are
detached with logical key "A"; entry 1 was detached by the last reconcile,
entry 0 two reconciles earlier. -/
def sampleTwoDetached : LifetimeController :=
  { ((((initController.ProcessChildren
        [(.str "A", .leaf 0)]).ProcessChildren
        []).ProcessChildren
        [(.str "A", .leaf 1)]).ProcessChildren [])
    with CanRecover := true }

/-- C8 counterexample: with two detached entries sharing key "A" — uid 0
(detached by the second reconcile) and uid 1 (detached by the fourth, i.e.
the most recently detached one) — `GetRenderedComponentByKey` returns the
entry with uid 0, and the recovery pass rebinds "A" to uid 0, not to the
most recently detached uid 1 as the claim requires. -/
theorem claim_C8_cex :
    sampleTwoDetached.AllComponents
      = [(0, ⟨.str "A", .leaf 0, 0⟩), (1, ⟨.str "A", .leaf 1, 1⟩)] ∧
    sampleTwoDetached.IsComponentActive 0 = false ∧
    sampleTwoDetached.IsComponentActive 1 = false ∧
    sampleTwoDetached.CanRecover = true ∧
    (sampleTwoDetached.GetRenderedComponentByKey (.str "A")).map
        ComponentState.UID = some 0 ∧
    AList.get? (sampleTwoDetached.ProcessChildren
        [(.str "A", .leaf 2)]).CurrentRendered (.str "A") = some 0 := by
  decide

/-- C8 (corrected): when several detached entries share the logical key,
the recovery step (`GetRenderedComponentByKey`) selects the entry stored
**first** in the entries map's insertion order — the earliest-created one —
not the most recently detached one; and it finds an entry whenever one with
that key exists. -/
theorem claim_C8_first_match (c : LifetimeController) (k : LKey) :
    (∀ comp, c.GetRenderedComponentByKey k = some comp →
       comp.Key = k ∧
       ∃ u l1 l2, c.AllComponents = l1 ++ (u, comp) :: l2 ∧
         ∀ q ∈ l1, q.2.Key ≠ k) ∧
    ((∃ p ∈ c.AllComponents, p.2.Key = k) →
       (c.GetRenderedComponentByKey k).isSome) := by
  constructor
  · intro comp h
    rw [GetRenderedComponentByKey] at h
    cases hf : c.AllComponents.find? (fun p => p.2.Key = k) with
    | none =>
      rw [hf] at h
      exact absurd h (by simp)
    | some q =>
      rw [hf] at h
      simp at h
      subst h
      rw [List.find?_eq_some] at hf
      obtain ⟨hq, l1, l2, hsplit, hrest⟩ := hf
      simp at hq
      refine ⟨hq, q.1, l1, l2, by rw [hsplit], ?_⟩
      intro p hp
      have := hrest p hp
      simpa using this
  · exact getRenderedComponentByKey_isSome c k

/-- C9 (code bug): with no injected token, `useComponentIsActive` raises
(`useIntrinsicData(props)!` returns `undefined` and the destructuring
`const { uid, controller } = ...` indexes it) instead of returning `true` as
the claim — and the function's own doc comment — require; the fail-open
guard on the next line is unreachable.  The removal-strategy hooks raise for
the same reason, but with the destructuring error rather than their
invalid-usage message.  With the token present, `useComponentIsActive` does
return `IsComponentActive` of the injected identity (last two conjuncts:
an active identity and an unknown one). -/
theorem claim_C9_hooks_eval :
    useComponentIsActive initController [] = .error .nilIndex ∧
    useComponentIsActive initController [(.user 0, .userVal 7)]
      = .error .nilIndex ∧
    useComponentLifetimeGuard [] = .error .nilIndex ∧
    useDeferLifetimeGuard [] = .error .nilIndex ∧
    useLifetimeAsyncGuard [] = .error .nilIndex ∧
    useComponentIsActive samplePropsState (injectTokens [] 0) = .ok true ∧
    useComponentIsActive samplePropsState (injectTokens [] 5) = .ok false :=
  ⟨rfl, rfl, rfl, rfl, rfl, rfl, rfl⟩

/-- C10: in every state reachable from the fresh controller through
`ProcessChildren`, `RegistryComponent`, `UpdateComponent`, `UnlistComponent`
(and the owner's `CanRecover` writes), every binding `k → uid` in
`CurrentRendered` names an entry of `AllComponents` whose `Key` is `k`;
every entry is stored under its own `UID` (so the `UID` field of the entry
at a given identity is the same — that identity — in every reachable state
in which it exists: identities never change once created, fourth conjunct);
and at most one entry is active per logical key. -/
theorem claim_C10_binding_invariant (c : LifetimeController)
    (hr : Reachable c) :
    (∀ q ∈ c.CurrentRendered, ∃ comp,
       AList.get? c.AllComponents q.2 = some comp ∧ comp.Key = q.1) ∧
    (∀ p ∈ c.AllComponents, p.2.UID = p.1) ∧
    (∀ u1 u2 comp1 comp2,
       AList.get? c.AllComponents u1 = some comp1 →
       AList.get? c.AllComponents u2 = some comp2 →
       comp1.Key = comp2.Key →
       c.IsComponentActive u1 = true → c.IsComponentActive u2 = true →
       u1 = u2) ∧
    (∀ c' : LifetimeController, Reachable c' →
       ∀ u comp comp', AList.get? c.AllComponents u = some comp →
         AList.get? c'.AllComponents u = some comp' →
         comp'.UID = comp.UID) := by
  obtain ⟨hndA, hndB, hE, hB⟩ := inv_reachable c hr
  refine ⟨?_, fun p hp => (hE p hp).1, ?_, ?_⟩
  · intro q hq
    exact bindingsWF_get? c hB q.1 q.2
      (AList.get?_of_mem_of_nodup _ _ _ hq hndB)
  · exact fun u1 u2 comp1 comp2 h1 h2 hk ha1 ha2 =>
      active_unique c u1 u2 comp1 comp2 h1 h2 hk ha1 ha2
  · intro c' hr' u comp comp' hc hc'
    have h1 : comp.UID = u := (entriesWF_get? c hE u comp hc).1
    obtain ⟨_, _, hE', _⟩ := inv_reachable c' hr'
    have h2 : comp'.UID = u := (entriesWF_get? c' hE' u comp' hc').1
    rw [h1, h2]

theorem binding_value_unique (c : LifetimeController)
    (hndB : (AList.keys c.CurrentRendered).Nodup) (hB : BindingsWF c)
    (k : LKey) (uid : Nat) (comp : ComponentState)
    (hcomp : AList.get? c.AllComponents uid = some comp) (hkey : comp.Key = k) :
    ∀ q ∈ c.CurrentRendered, q.2 = uid → q = (k, uid) := by
  intro q hq he
  obtain ⟨compq, hcq, hkq⟩ := bindingsWF_get? c hB q.1 q.2
    (AList.get?_of_mem_of_nodup _ _ _ hq hndB)
  rw [he, hcomp] at hcq
  injection hcq with hcqe
  rcases q with ⟨qk, qu⟩
  simp only at he hkq
  have h1 : qk = k := by
    rw [← hkq, ← hcqe]
    exact hkey
  rw [h1, he]

/-- C1: for a logical key bound in the current bindings and still present in
`desired`, a reconcile pass keeps the binding on the same identity, replaces
the bound entry's content by the new content from `desired`, and the entry
keeps its place — under its unchanged physical key (its uid) — in the
render output of both the pass before and the pass after. -/
theorem claim_C1_identity_continuity (c : LifetimeController)
    (children : ReactChildren) (k : LKey) (uid : Nat) (ch : RElem)
    (hInv : Inv c)
    (hb : AList.get? c.CurrentRendered k = some uid)
    (hch : AList.get? children k = some ch) :
    AList.get? (c.ProcessChildren children).CurrentRendered k = some uid ∧
    (∃ comp, AList.get? c.AllComponents uid = some comp ∧
       AList.get? (c.ProcessChildren children).AllComponents uid
         = some { comp with Element := ch }) ∧
    uid ∈ AList.keys (c.RenderComponents).1 ∧
    uid ∈ AList.keys ((c.ProcessChildren children).RenderComponents).1 := by
  obtain ⟨hndA, hndB, hE, hB⟩ := hInv
  obtain ⟨comp, hcomp, hkey⟩ := bindingsWF_get? c hB k uid hb
  have hpc : c.ProcessChildren children
      = children.foldl processNewChild (c.processPhase1 children) := rfl
  rw [hpc]
  have hmemCR : (k, uid) ∈ c.CurrentRendered := AList.get?_mem _ _ _ hb
  have huniq := binding_value_unique c hndB hB k uid comp hcomp hkey
  have hInv1 : Inv (c.processPhase1 children) :=
    inv_phase1 c children ⟨hndA, hndB, hE, hB⟩
  have hb1 : AList.get? (c.processPhase1 children).CurrentRendered k
      = some uid := by
    rw [processPhase1_CR c children hndB]
    refine AList.get?_of_mem_of_nodup _ _ _ ?_ ?_
    · exact List.mem_filter.mpr ⟨hmemCR, by simp [hch]⟩
    · exact List.Nodup.sublist (List.Sublist.map Prod.fst (List.filter_sublist _))
        hndB
  have hc1 : AList.get? (c.processPhase1 children).AllComponents uid
      = some { comp with Element := ch } := by
    show AList.get? (c.CurrentRendered.foldl (processOldChild children)
        ([], c.AllComponents)).2 uid = _
    exact foldl_processOld_comps_rebound children c.CurrentRendered []
      c.AllComponents k uid comp ch hndB hmemCR huniq hch hcomp
  have hkey1 : ({ comp with Element := ch } : ComponentState).Key = k := hkey
  obtain ⟨hInvF, hbF, hcF⟩ := foldl_pnc_preserve_bound children
    (c.processPhase1 children) k uid { comp with Element := ch } hInv1 hb1
    hc1 hkey1
  refine ⟨hbF, ⟨comp, hcomp, hcF⟩, ?_, ?_⟩
  · exact mem_render_keys c hndA uid (by rw [hcomp]; rfl)
  · exact mem_render_keys _ hInvF.1 uid (by rw [hcF]; rfl)

/-- C2: for a logical key bound in the current bindings and absent from
`desired`, a reconcile pass drops the binding, the formerly bound identity
is no longer active, but its entry — content untouched — still exists in
the entries map and still appears (under its uid) in the render output. -/
theorem claim_C2_detach_not_delete (c : LifetimeController)
    (children : ReactChildren) (k : LKey) (uid : Nat)
    (hInv : Inv c)
    (hb : AList.get? c.CurrentRendered k = some uid)
    (habs : AList.get? children k = none) :
    AList.get? (c.ProcessChildren children).CurrentRendered k = none ∧
    (c.ProcessChildren children).IsComponentActive uid = false ∧
    (∃ comp, AList.get? c.AllComponents uid = some comp ∧
       AList.get? (c.ProcessChildren children).AllComponents uid = some comp) ∧
    uid ∈ AList.keys ((c.ProcessChildren children).RenderComponents).1 := by
  obtain ⟨hndA, hndB, hE, hB⟩ := hInv
  obtain ⟨comp, hcomp, hkey⟩ := bindingsWF_get? c hB k uid hb
  have hpc : c.ProcessChildren children
      = children.foldl processNewChild (c.processPhase1 children) := rfl
  rw [hpc]
  have huniq := binding_value_unique c hndB hB k uid comp hcomp hkey
  have hb1 : AList.get? (c.processPhase1 children).CurrentRendered k
      = none := by
    rw [processPhase1_CR c children hndB, AList.get?_eq_none_iff]
    intro q hq he
    have hq0 := List.mem_of_mem_filter hq
    have hpred := List.of_mem_filter hq
    have hcr : AList.get? c.CurrentRendered q.1 = some q.2 :=
      AList.get?_of_mem_of_nodup _ _ _ hq0 hndB
    rw [he, hb] at hcr
    injection hcr with hcre
    rw [he, habs] at hpred
    exact Bool.noConfusion hpred
  have hc1 : AList.get? (c.processPhase1 children).AllComponents uid
      = some comp := by
    show AList.get? (c.CurrentRendered.foldl (processOldChild children)
        ([], c.AllComponents)).2 uid = _
    rw [foldl_processOld_comps_untouched children c.CurrentRendered []
      c.AllComponents uid ?_]
    · exact hcomp
    · intro q hq he
      rw [huniq q hq he]
      exact habs
  have hall : ∀ p ∈ children, p.1 ≠ k := by
    rw [AList.get?_eq_none_iff] at habs
    exact habs
  obtain ⟨hInvF, hbF, hcF⟩ := foldl_pnc_preserve_detached children
    (c.processPhase1 children) k uid comp
    (inv_phase1 c children ⟨hndA, hndB, hE, hB⟩) hall hb1 hc1 hkey
  refine ⟨hbF, ?_, ⟨comp, hcomp, hcF⟩, ?_⟩
  · rw [isActive_entry _ uid comp hcF,
      getRendered_none _ comp (by rw [hkey]; exact hbF)]
  · exact mem_render_keys _ hInvF.1 uid (by rw [hcF]; rfl)

/-- C3: a key of `desired` that is unbound when the second reconcile loop
reaches it (`ProcessChildren` is `processNewChild` folded over `desired`
after the rebind/drop phase) is either recovered — `CanRecover` is on and a
detached entry with that key exists (first conjunct: existence of an entry
with the key is exactly `GetRenderedComponentByKey` succeeding; with the key
unbound every such entry is detached): that entry's content is rebound, its
binding restored, it is active again under the same identity and no entry is
created — or, when `CanRecover` is off or no such entry exists, a fresh
entry with a fresh identity, this key and the supplied content is created
and bound, while every pre-existing entry survives, any detached entry with
the same key stays inactive, and every pre-existing entry still appears in
the render output. -/
theorem claim_C3_recover_or_create (c : LifetimeController) (k : LKey)
    (ch : RElem) (hInv : Inv c)
    (hnb : AList.get? c.CurrentRendered k = none) :
    ((∃ p ∈ c.AllComponents, p.2.Key = k) ↔
       (c.GetRenderedComponentByKey k).isSome) ∧
    (∀ comp0, c.CanRecover = true →
       c.GetRenderedComponentByKey k = some comp0 →
       (processNewChild c (k, ch)).CurrentRendered
           = AList.set c.CurrentRendered k comp0.UID ∧
       AList.get? (processNewChild c (k, ch)).AllComponents comp0.UID
           = some { comp0 with Element := ch } ∧
       AList.keys (processNewChild c (k, ch)).AllComponents
           = AList.keys c.AllComponents ∧
       (processNewChild c (k, ch)).IsComponentActive comp0.UID = true) ∧
    ((c.CanRecover = false ∨ c.GetRenderedComponentByKey k = none) →
       processNewChild c (k, ch) = c.RegistryComponent ch k ∧
       AList.get? (c.RegistryComponent ch k).CurrentRendered k
           = some c.nextUID ∧
       AList.get? (c.RegistryComponent ch k).AllComponents c.nextUID
           = some ⟨k, ch, c.nextUID⟩ ∧
       (∀ u comp, AList.get? c.AllComponents u = some comp →
          AList.get? (c.RegistryComponent ch k).AllComponents u = some comp ∧
          (comp.Key = k →
            (c.RegistryComponent ch k).IsComponentActive u = false) ∧
          u ∈ AList.keys ((c.RegistryComponent ch k).RenderComponents).1)) := by
  obtain ⟨hndA, hndB, hE, hB⟩ := hInv
  refine ⟨?_, ?_, ?_⟩
  · constructor
    · exact getRenderedComponentByKey_isSome c k
    · intro hs
      obtain ⟨comp0, hcomp0⟩ := Option.isSome_iff_exists.mp hs
      obtain ⟨hk0, u0, hmem0⟩ := getRenderedComponentByKey_spec c k comp0 hcomp0
      exact ⟨(u0, comp0), hmem0, hk0⟩
  · intro comp0 hrec hfind
    obtain ⟨hk0, u0, hmem0⟩ := getRenderedComponentByKey_spec c k comp0 hfind
    have hu0 : comp0.UID = u0 := (hE (u0, comp0) hmem0).1
    have hg0 : AList.get? c.AllComponents comp0.UID = some comp0 := by
      rw [hu0]
      exact AList.get?_of_mem_of_nodup _ _ _ hmem0 hndA
    rw [processNewChild_recover c (k, ch) comp0 hnb hrec hfind]
    refine ⟨rfl, ?_, ?_, ?_⟩
    · show AList.get? (updateElem c.AllComponents comp0.UID ch) comp0.UID = _
      rw [get?_updateElem_self, hg0]
      rfl
    · show AList.keys (updateElem c.AllComponents comp0.UID ch) = _
      exact keys_updateElem _ _ _
    · refine (isActive_iff _ _).mpr ⟨{ comp0 with Element := ch }, ?_, rfl, ?_⟩
      · show AList.get? (updateElem c.AllComponents comp0.UID ch) comp0.UID = _
        rw [get?_updateElem_self, hg0]
        rfl
      · show AList.get? (AList.set c.CurrentRendered k comp0.UID)
            ({ comp0 with Element := ch } : ComponentState).Key
            = some comp0.UID
        rw [show ({ comp0 with Element := ch } : ComponentState).Key = k
          from hk0]
        exact AList.get?_set_self _ _ _
  · intro hno
    have hfr := processNewChild_fresh c (k, ch) hnb hno
    refine ⟨hfr, ?_, ?_, ?_⟩
    · rw [registry_CR]
      exact AList.get?_set_self _ _ _
    · rw [registry_AC]
      exact AList.get?_set_self _ _ _
    · intro u comp hcomp
      have hlt : u < c.nextUID := (entriesWF_get? c hE u comp hcomp).2
      have hpres : AList.get? (c.RegistryComponent ch k).AllComponents u
          = some comp := by
        rw [registry_AC, AList.get?_set_ne _ _ _ _ (Nat.ne_of_lt hlt)]
        exact hcomp
      refine ⟨hpres, ?_, ?_⟩
      · intro hkk
        have hcr : AList.get? (c.RegistryComponent ch k).CurrentRendered
            comp.Key = some c.nextUID := by
          rw [registry_CR, hkk]
          exact AList.get?_set_self _ _ _
        have hne : c.nextUID ≠ comp.UID := by
          rw [(entriesWF_get? c hE u comp hcomp).1]
          exact (Nat.ne_of_lt hlt).symm
        rw [isActive_entry _ u comp hpres,
          getRendered_mismatch _ comp c.nextUID hcr hne]
      · refine mem_render_keys _ ?_ u (by rw [hpres]; rfl)
        exact (inv_registry c ch k ⟨hndA, hndB, hE, hB⟩).1

/-! ### Witnesses: the hypothesised claim theorems applied at concrete,
reachable registry states -/

theorem claim_C1_witness :
    AList.get? (samplePropsState.ProcessChildren
        [(.str "A", .leaf 9)]).CurrentRendered (.str "A") = some 0 ∧
    (∃ comp, AList.get? samplePropsState.AllComponents 0 = some comp ∧
       AList.get? (samplePropsState.ProcessChildren
           [(.str "A", .leaf 9)]).AllComponents 0
         = some { comp with Element := .leaf 9 }) ∧
    0 ∈ AList.keys (samplePropsState.RenderComponents).1 ∧
    0 ∈ AList.keys ((samplePropsState.ProcessChildren
        [(.str "A", .leaf 9)]).RenderComponents).1 :=
  claim_C1_identity_continuity samplePropsState [(.str "A", .leaf 9)]
    (.str "A") 0 (.leaf 9) (by decide) (by decide) (by decide)

theorem claim_C2_witness :
    AList.get? (samplePropsState.ProcessChildren []).CurrentRendered
      (.str "A") = none ∧
    (samplePropsState.ProcessChildren []).IsComponentActive 0 = false ∧
    (∃ comp, AList.get? samplePropsState.AllComponents 0 = some comp ∧
       AList.get? (samplePropsState.ProcessChildren []).AllComponents 0
         = some comp) ∧
    0 ∈ AList.keys ((samplePropsState.ProcessChildren
        []).RenderComponents).1 :=
  claim_C2_detach_not_delete samplePropsState [] (.str "A") 0
    (by decide) (by decide) (by decide)

theorem claim_C3_witness :
    (processNewChild sampleTwoDetached (.str "A", .leaf 2)).CurrentRendered
        = AList.set sampleTwoDetached.CurrentRendered (.str "A") 0 ∧
    AList.get? (processNewChild sampleTwoDetached
        (.str "A", .leaf 2)).AllComponents 0
        = some ⟨.str "A", .leaf 2, 0⟩ ∧
    AList.keys (processNewChild sampleTwoDetached
        (.str "A", .leaf 2)).AllComponents
        = AList.keys sampleTwoDetached.AllComponents ∧
    (processNewChild sampleTwoDetached (.str "A", .leaf 2)).IsComponentActive 0
        = true :=
  (claim_C3_recover_or_create sampleTwoDetached (.str "A") (.leaf 2)
    (by decide) (by decide)).2.1 ⟨.str "A", .leaf 0, 0⟩ (by decide) (by decide)

theorem claim_C4_witness :
    (sampleTwoDetached.RenderComponents).1
      = sampleTwoDetached.AllComponents.map (fun p => (p.1, renderItemOf p)) ∧
    (sampleTwoDetached.RenderComponents).1.length
      = sampleTwoDetached.AllComponents.length ∧
    AList.keys (sampleTwoDetached.RenderComponents).1
      = sampleTwoDetached.AllComponents.map (fun p => p.2.UID) :=
  claim_C4_render_shape sampleTwoDetached (by decide) (by decide)

theorem claim_C5_witness :
    (initController.UnlistComponent 3).1.AllComponents
      = initController.AllComponents ∧
    (initController.UnlistComponent 3).1.CurrentRendered
      = initController.CurrentRendered :=
  (claim_C5_unlist_noop initController 3).1 (Or.inr (by decide))

theorem claim_C6_witness :
    AList.get? (samplePropsState.RenderComponents).1 0
      = some ⟨.str "A", .comp 5 (injectTokens [(.user 0, .userVal 1)] 0)⟩ ∧
    AList.get? (injectTokens [(.user 0, .userVal 1)] 0) .uidInternal
      = some (.uidVal 0) ∧
    AList.get? (injectTokens [(.user 0, .userVal 1)] 0) .lifetimeInternal
      = some .controllerRef ∧
    AList.get? (samplePropsState.RenderComponents).2.AllComponents 0
      = some ⟨.str "A", .comp 5 (injectTokens [(.user 0, .userVal 1)] 0), 0⟩ := by
  obtain ⟨h1, h2, h3, h4, h5⟩ := claim_C6_token_injection samplePropsState 0
    ⟨.str "A", .comp 5 [(.user 0, .userVal 1)], 0⟩ 5 [(.user 0, .userVal 1)]
    (by decide) (by decide) (by decide)
  exact ⟨h1, h2, h3, h5⟩

theorem claim_C8_witness :
    (⟨.str "A", .leaf 0, 0⟩ : ComponentState).Key = .str "A" ∧
    ∃ u l1 l2, sampleTwoDetached.AllComponents
        = l1 ++ (u, ⟨.str "A", .leaf 0, 0⟩) :: l2 ∧
      ∀ q ∈ l1, q.2.Key ≠ .str "A" :=
  (claim_C8_first_match sampleTwoDetached (.str "A")).1
    ⟨.str "A", .leaf 0, 0⟩ (by decide)

theorem claim_C10_witness :
    ∃ comp, AList.get? samplePropsState.AllComponents 0 = some comp ∧
      comp.Key = .str "A" :=
  (claim_C10_binding_invariant samplePropsState
    (Reachable.process initController
      [(.str "A", .comp 5 [(.user 0, .userVal 1)])] Reachable.init)).1
    (.str "A", 0) (by decide)

end ReactLifetime
